import Mathlib

/-!
Verification development for the aperture-correction measurement core
(`python/lsst/meas/algorithms/measureApCorr.py`, `MeasureApCorrTask.run`).

The per-field pipeline of `run` is embedded shallowly:

* Scalar flux values are modelled by `NFloat := Option ℚ`: `some q` is a
  finite value and `none` models IEEE NaN (all comparisons against `none`
  are false and arithmetic propagates `none`, matching numpy semantics
  under `numpy.errstate(invalid="ignore")`).  Infinities are not
  distinguished from NaN; the fluxes that feed any arithmetic are
  filtered to finite values first, and fitted surfaces are modelled as
  returning finite-or-NaN values.
* The external polynomial primitive `ChebyshevBoundedField.fit` /
  `evaluate` (excluded from the repository; a black box per the spec) is
  a parameter `fitfn : FitFn`; a fitted surface is a function
  `ℚ → ℚ → NFloat` evaluated pointwise.
* `ChebyshevBoundedFieldControl.computeSize` is likewise external and is
  a parameter `cs : ℕ → ℕ → ℕ` of the two orders; the control object
  itself is reduced to the pair `(orderX, orderY)` that the loop at
  lines 244-249 reads and writes.
* The numeric primitive `** 0.5` (square root) does not stay inside ℚ,
  so it is abstracted as a parameter `sq : ℚ → ℚ`; every theorem below
  is proved for an arbitrary instantiation of `sq`, and concrete
  evaluations only apply `sq` at perfect squares, where any faithful
  instantiation agrees with the real square root.
-/

set_option autoImplicit false

namespace MeasureApCorr

universe u v

/-- Finite-or-NaN scalar: `some q` is the finite value `q`, `none` is NaN. -/
abbrev NFloat := Option ℚ

/-- Subtraction with NaN propagation (numpy `a - b`). -/
def nsub : NFloat → NFloat → NFloat
  | some a, some b => some (a - b)
  | _, _ => none

/-- Addition with NaN propagation. -/
def nadd : NFloat → NFloat → NFloat
  | some a, some b => some (a + b)
  | _, _ => none

/-- Multiplication with NaN propagation (numpy `a * b`). -/
def nmul : NFloat → NFloat → NFloat
  | some a, some b => some (a * b)
  | _, _ => none

/-- Division: NaN operands give NaN; division by zero is modelled as NaN
(the call sites only divide by values already filtered to be nonzero). -/
def ndiv : NFloat → NFloat → NFloat
  | some a, some b => if b = 0 then none else some (a / b)
  | _, _ => none

/-- Absolute value (numpy `fabs`); NaN maps to NaN. -/
def nabs : NFloat → NFloat := fun a => a.map (fun q => |q|)

/-- Squaring (numpy `d ** 2`). -/
def nsq : NFloat → NFloat := fun a => nmul a a

/-- Comparison `a <= b` as numpy evaluates it with invalid warnings
suppressed: any comparison involving NaN is false. -/
def nleB : NFloat → NFloat → Bool
  | some a, some b => decide (a ≤ b)
  | _, _ => false

/-- Comparison `a > b` with NaN evaluating to false (numpy `fluxes > 0.0`
under `errstate(invalid="ignore")`). -/
def ngtB : NFloat → NFloat → Bool
  | some a, some b => decide (b < a)
  | _, _ => false

/-- numpy `isfinite`: true exactly on actual (finite) values. -/
def nfinite : NFloat → Bool
  | some _ => true
  | none => false

/-- Sum of a list of scalars, NaN-propagating (numpy `sum`). -/
def nsum (l : List NFloat) : NFloat := l.foldr nadd (some 0)

/-- numpy `mean`: sum divided by length; the mean of an empty array is
NaN (numpy emits a warning and returns `nan`). -/
def nmean (l : List NFloat) : NFloat :=
  if l.length = 0 then none else ndiv (nsum l) (some (l.length : ℚ))

/-- The power `x ** 0.5` with an abstract square root `sq` on
nonnegative rationals; negative arguments give NaN as in numpy. -/
def nroot (sq : ℚ → ℚ) : NFloat → NFloat
  | none => none
  | some q => if q < 0 then none else some (sq q)

/-- Boolean-mask indexing `arr[keep]` on parallel lists (numpy fancy
indexing with a boolean mask): retain exactly the entries whose mask bit
is true, preserving relative order. -/
def applyMask {α : Type u} : List α → List Bool → List α
  | a :: as, b :: bs => if b then a :: applyMask as bs else applyMask as bs
  | _, _ => []

/-- One catalog record, projected onto the data `run` reads for a single
flux field: position (`getX`/`getY`), the reference flux and its flag
(`refFluxKeys`), this field's flux and flag (`keys`), and the
`apcorr_<name>_used` flag that `run` may set. -/
structure Record where
  x : ℚ
  y : ℚ
  refFlux : NFloat
  refFlag : Bool
  flux : NFloat
  flag : Bool
  used : Bool
deriving DecidableEq

/-- The slice of `MeasureApCorrConfig` that `run` consults:
`minDegreesOfFreedom` (a Python int compared against a difference that
may be negative, hence ℤ), `numIter`, `numSigmaClip`, `allowFailure`,
and the initial Chebyshev orders from `fitConfig`. -/
structure Config where
  minDegreesOfFreedom : ℤ
  numIter : ℕ
  numSigmaClip : ℚ
  allowFailure : List String
  orderX : ℕ
  orderY : ℕ

/-- The mutable pair `(ctrl.orderX, ctrl.orderY)` of the Chebyshev
control object. -/
abbrev Ctrl := ℕ × ℕ

/-- A fitted 2-d surface, evaluated pointwise (the model of a
`ChebyshevBoundedField`). -/
abbrev Surface := ℚ → ℚ → NFloat

/-- The external fit primitive `ChebyshevBoundedField.fit(bbox, x, y,
data, ctrl)`; the bounding box is fixed for the whole run and absorbed
into the parameter. -/
abbrev FitFn := List ℚ → List ℚ → List NFloat → Ctrl → Surface

/-- The working set of one field: parallel arrays `x`, `y`,
`apCorrData` and the index array `indices` into `subset2`. -/
structure FitSample where
  x : List ℚ
  y : List ℚ
  apCorrData : List NFloat
  indices : List ℕ
deriving DecidableEq

/-- The empty working set (used only as a `getD` default). -/
def sEmpty : FitSample := ⟨[], [], [], []⟩

/-- A default record (used only as a `getD` default). -/
def anyRec : Record := ⟨0, 0, none, false, none, false, false⟩

/-- One field's input to `run`: the field name and the per-field
projection of `subset1` (the selector output already narrowed to
records with unflagged, finite reference flux). -/
structure FieldInput where
  name : String
  subset1 : List Record

/-- The per-field goodness mask of lines 222-228: not flagged, finite
flux, strictly positive flux, combined with `logical_and.reduce` (NaN
comparisons silently false). -/
def isGoodMask (subset1 : List Record) : List Bool :=
  List.zipWith (fun a b => a && b)
    (subset1.map (fun r => !r.flag))
    (List.zipWith (fun a b => a && b)
      (subset1.map (fun r => nfinite r.flux))
      (subset1.map (fun r => ngtB r.flux (some 0))))

/-- Line 229: `subset2 = [record for record, good in zip(subset1, isGood)
if good]`. -/
def subset2Of (subset1 : List Record) : List Record :=
  applyMask subset1 (isGoodMask subset1)

/-- Lines 252-259: fill the parallel arrays with positions, the ratio
`refFlux / flux`, and `indices = arange(len(subset2))`. -/
def buildArrays (subset2 : List Record) : FitSample :=
  ⟨subset2.map Record.x, subset2.map Record.y,
   subset2.map (fun r => ndiv r.refFlux r.flux),
   List.range subset2.length⟩

/-- The degree-reduction while loop of lines 244-249, with explicit
fuel: while `len(subset2) - ctrl.computeSize() < minDegreesOfFreedom`,
decrement `orderX` if positive, then `orderY` if positive.  Running out
of fuel returns `none`, which models the loop running forever (it can
only fail to exit at `(0, 0)`, where the state repeats). -/
def adaptDegree (cs : ℕ → ℕ → ℕ) (n : ℕ) (m : ℤ) : ℕ → Ctrl → Option Ctrl
  | 0, _ => none
  | fuel + 1, (ox, oy) =>
    if (n : ℤ) - cs ox oy < m then
      adaptDegree cs n m fuel (if ox > 0 then ox - 1 else ox, if oy > 0 then oy - 1 else oy)
    else some (ox, oy)

/-- Lines 271-272: evaluate the fitted surface at each working point and
subtract the observed ratio (`apCorrDiffs = evaluate(x, y) - apCorrData`). -/
def residuals (apCorrField : Surface) (s : FitSample) : List NFloat :=
  List.zipWith (fun p d => nsub (apCorrField p.1 p.2) d) (s.x.zip s.y) s.apCorrData

/-- Line 273 applied to a fitted surface: the RMS error
`mean(apCorrDiffs ** 2) ** 0.5` over the current working set. -/
def rmsOf (sq : ℚ → ℚ) (apCorrField : Surface) (s : FitSample) : NFloat :=
  nroot sq (nmean ((residuals apCorrField s).map nsq))

/-- One iteration of the sigma-clip loop body (lines 263-282): fit,
compute residuals and their RMS, clip at `numSigmaClip * rms`, and
shrink the four parallel arrays by the boolean mask.  Returns the
clipped sample together with the iteration's `apCorrErr`. -/
def clipIter (fitfn : FitFn) (sq : ℚ → ℚ) (cfg : Config) (ctrl : Ctrl)
    (s : FitSample) : FitSample × NFloat :=
  let apCorrField : Surface := fitfn s.x s.y s.apCorrData ctrl
  let apCorrDiffs : List NFloat := residuals apCorrField s
  let apCorrErr : NFloat := nroot sq (nmean (apCorrDiffs.map nsq))
  let apCorrDiffLim : NFloat := nmul (some cfg.numSigmaClip) apCorrErr
  let keep : List Bool := apCorrDiffs.map (fun d => nleB (nabs d) apCorrDiffLim)
  (⟨applyMask s.x keep, applyMask s.y keep, applyMask s.apCorrData keep,
    applyMask s.indices keep⟩, apCorrErr)

/-- The sample transformation of one clip iteration. -/
def clipStep (fitfn : FitFn) (sq : ℚ → ℚ) (cfg : Config) (ctrl : Ctrl)
    (s : FitSample) : FitSample :=
  (clipIter fitfn sq cfg ctrl s).1

/-- The retention mask of one clip iteration, written out as the
specification reads: keep a point iff the absolute residual is at most
`numSigmaClip` times the freshly computed RMS. -/
def keepMask (fitfn : FitFn) (sq : ℚ → ℚ) (cfg : Config) (ctrl : Ctrl)
    (s : FitSample) : List Bool :=
  (residuals (fitfn s.x s.y s.apCorrData ctrl) s).map
    (fun d => nleB (nabs d)
      (nmul (some cfg.numSigmaClip) (rmsOf sq (fitfn s.x s.y s.apCorrData ctrl) s)))

/-- The working set after `k` clip iterations. -/
def loopSample (fitfn : FitFn) (sq : ℚ → ℚ) (cfg : Config) (ctrl : Ctrl) :
    ℕ → FitSample → FitSample
  | 0, s => s
  | k + 1, s => loopSample fitfn sq cfg ctrl k (clipStep fitfn sq cfg ctrl s)

/-- Result of running the clip loop: the final working set, the last
value bound to the Python local `apCorrErr` (`none` when the loop body
never ran, i.e. the local is unbound), and the working sets passed to
the in-loop fit calls, in order. -/
structure LoopOut where
  sample : FitSample
  errBinding : Option NFloat
  trace : List FitSample
deriving DecidableEq

/-- The `for _i in range(numIter)` loop of lines 261-282. -/
def clipLoop (fitfn : FitFn) (sq : ℚ → ℚ) (cfg : Config) (ctrl : Ctrl) :
    ℕ → FitSample → Option NFloat → List FitSample → LoopOut
  | 0, s, e, tr => ⟨s, e, tr⟩
  | k + 1, s, _, tr =>
    let r := clipIter fitfn sq cfg ctrl s
    clipLoop fitfn sq cfg ctrl k r.1 (some r.2) (tr ++ [s])

/-- Set the used flag of a record (`record.set(keys.used, True)`). -/
def setUsed (r : Record) : Record := { r with used := true }

/-- Replace the element at index `i` by `f` of it; out-of-range indices
leave the list unchanged (`run` only ever uses in-range indices). -/
def modifyAt {α : Type u} : List α → ℕ → (α → α) → List α
  | [], _, _ => []
  | a :: as, 0, f => f a :: as
  | a :: as, n + 1, f => a :: modifyAt as n f

/-- Lines 302-303: `for i in indices: subset2[i].set(keys.used, True)`. -/
def markUsed (recs : List Record) (idxs : List ℕ) : List Record :=
  idxs.foldl (fun rs i => modifyAt rs i setUsed) recs

/-- The failure modes of `run` on one field: the `RuntimeError` of lines
239-241 (carrying the field name, the sample count and the required
count `minDegreesOfFreedom + 1`), the Python `UnboundLocalError` raised
at line 298 when `numIter = 0` leaves `apCorrErr` unassigned, and
nontermination of the degree-reduction loop (impossible when
`computeSize(0, 0) = 1`). -/
inductive RunError where
  | insufficientData (name : String) (nSources : ℕ) (nRequired : ℤ)
  | unboundLocal
  | adaptDiverged
deriving DecidableEq

/-- Everything `run` produces for one field that completes: the fitted
value surface stored under the flux name, the scalar `apCorrErr` stored
as the constant (0th-order) error surface, the surviving indices, the
final control orders, the working sets passed to every fit call
(in-loop fits followed by the terminal fit), and `subset2` after the
used flags were set. -/
structure FieldOutput where
  surface : Surface
  errScalar : NFloat
  indices : List ℕ
  ctrl : Ctrl
  fitTrace : List FitSample
  marked : List Record

/-- The per-field body of `run` (lines 216-303): narrow to `subset2`,
apply the minimum-sample policy, reduce the degree, run the clip loop,
perform the terminal fit, assemble the output and mark used records.
`.ok none` is the `continue` of the allow-failure branch; `.error`
aborts the whole run as the corresponding Python exception does. -/
def processField (fitfn : FitFn) (sq : ℚ → ℚ) (cs : ℕ → ℕ → ℕ) (cfg : Config)
    (fi : FieldInput) : Except RunError (Option FieldOutput) :=
  let subset2 := subset2Of fi.subset1
  if ((subset2.length : ℤ) - 1 < cfg.minDegreesOfFreedom) then
    if fi.name ∈ cfg.allowFailure then .ok none
    else .error (.insufficientData fi.name subset2.length (cfg.minDegreesOfFreedom + 1))
  else
    match adaptDegree cs subset2.length cfg.minDegreesOfFreedom
        (cfg.orderX + cfg.orderY + 1) (cfg.orderX, cfg.orderY) with
    | none => .error .adaptDiverged
    | some ctrl =>
      let lo := clipLoop fitfn sq cfg ctrl cfg.numIter (buildArrays subset2) none []
      let apCorrField := fitfn lo.sample.x lo.sample.y lo.sample.apCorrData ctrl
      match lo.errBinding with
      | none => .error .unboundLocal
      | some apCorrErr =>
        .ok (some ⟨apCorrField, apCorrErr, lo.sample.indices, ctrl,
          lo.trace ++ [lo.sample], markUsed subset2 lo.sample.indices⟩)

/-- The outer loop of `run` over the fields of `self.toCorrect`
(line 216): process fields in order, skip allow-failure fields, abort
the whole run on the first exception, and collect one output entry per
completed field. -/
def runTask (fitfn : FitFn) (sq : ℚ → ℚ) (cs : ℕ → ℕ → ℕ) (cfg : Config) :
    List FieldInput → Except RunError (List (String × FieldOutput))
  | [] => .ok []
  | fi :: rest =>
    match processField fitfn sq cs cfg fi with
    | .error e => .error e
    | .ok none => runTask fitfn sq cs cfg rest
    | .ok (some out) =>
      match runTask fitfn sq cs cfg rest with
      | .error e => .error e
      | .ok m => .ok ((fi.name, out) :: m)

/-- The four parallel arrays zipped into one list, for stating lock-step
invariants. -/
def zip4 (s : FitSample) : List (ℚ × (ℚ × (NFloat × ℕ))) :=
  s.x.zip (s.y.zip (s.apCorrData.zip s.indices))

/-- All four parallel arrays have equal length. -/
def Wf (s : FitSample) : Prop :=
  s.x.length = s.y.length ∧ s.x.length = s.apCorrData.length ∧
    s.x.length = s.indices.length

/-! Concrete instances used to evaluate the development on explicit
inputs.  `sqEx` agrees with the real square root at every argument the
runs below apply it to (namely 0 and 1). -/

/-- Square root instantiation for the concrete runs. -/
def sqEx : ℚ → ℚ := fun q => if q = 1 then 1 else 0

/-- Fit primitive instantiation: always returns the zero surface. -/
def fit0 : FitFn := fun _ _ _ _ => fun _ _ => some 0

/-- computeSize instantiation: the full Chebyshev coefficient grid
`(orderX + 1) * (orderY + 1)`. -/
def csEx : ℕ → ℕ → ℕ := fun ox oy => (ox + 1) * (oy + 1)

/-- A well-behaved record at the origin with unit flux and the given
reference flux (hence ratio `ref`). -/
def recEx (ref : ℚ) : Record := ⟨0, 0, some ref, false, some 1, false, false⟩

/-- Configuration of the concrete runs: `minDegreesOfFreedom = 1`, one
clip iteration, `numSigmaClip = 1`, empty allow-failure set, target
degree `(0, 0)`. -/
def cfgEx : Config := ⟨1, 1, 1, [], 0, 0⟩

/-- The same configuration with `numIter = 0`. -/
def cfgEx0 : Config := ⟨1, 0, 1, [], 0, 0⟩

/-- The same configuration with the example field allowed to fail. -/
def cfgAllow : Config := ⟨1, 1, 1, ["base_PsfFlux"], 0, 0⟩

/-- Four usable records with flux ratios `0, 0, 0, -2`: under the zero
surface the residuals are `0, 0, 0, 2`, the RMS is `1`, and the clip at
`1 * RMS` removes exactly the last point. -/
def fieldEx : FieldInput := ⟨"base_PsfFlux", [recEx 0, recEx 0, recEx 0, recEx (-2)]⟩

/-- A field with a single usable record. -/
def fieldEx1 : FieldInput := ⟨"base_PsfFlux", [recEx 0]⟩

/-- A `subset1` exercising the narrowing predicate: a good record, a NaN
flux, a negative flux, and a flagged record. -/
def s1Ex : List Record :=
  [recEx 3, ⟨0, 0, some 1, false, none, false, false⟩,
   ⟨0, 0, some 1, false, some (-1), false, false⟩,
   ⟨0, 0, some 1, false, some 1, true, false⟩]

/-- Projection of a per-field result onto the raised error, if any. -/
def errOf : Except RunError (Option FieldOutput) → Option RunError
  | .error e => some e
  | _ => none

/-- Projection onto the stored error scalar of a completed field. -/
def storedErrOf : Except RunError (Option FieldOutput) → Option NFloat
  | .ok (some out) => some out.errScalar
  | _ => none

/-- The RMS of the terminal fit's residuals over the final working set,
recomputed from a completed field's output: the quantity claim C1 says
the stored error scalar equals. -/
def finalRMSOf (sq : ℚ → ℚ) : Except RunError (Option FieldOutput) → Option NFloat
  | .ok (some out) =>
    some (rmsOf sq out.surface (out.fitTrace.getD (out.fitTrace.length - 1) sEmpty))
  | _ => none

/-- The sizes of the working sets passed to the successive fit calls of
a completed field. -/
def fitTraceLens : Except RunError (Option FieldOutput) → List ℕ
  | .ok (some out) => out.fitTrace.map (fun s => s.x.length)
  | _ => []

/-- The initial working set of the four-point example run. -/
def s0Run : FitSample :=
  ⟨[0, 0, 0, 0], [0, 0, 0, 0], [some 0, some 0, some 0, some (-2)], [0, 1, 2, 3]⟩

/-- The working set of the example run after its single clip iteration. -/
def s1Run : FitSample := ⟨[0, 0, 0], [0, 0, 0], [some 0, some 0, some 0], [0, 1, 2]⟩

/-- subset2 of the example run after the used flags are set. -/
def markedRun : List Record :=
  [setUsed (recEx 0), setUsed (recEx 0), setUsed (recEx 0), recEx (-2)]

/-- The full output of the four-point example run. -/
def outRun : FieldOutput :=
  ⟨fit0 s1Run.x s1Run.y s1Run.apCorrData (0, 0), some 1, [0, 1, 2], (0, 0),
   [s0Run, s1Run], markedRun⟩

/-! Helper lemmas about boolean-mask indexing. -/

theorem applyMask_nil_left {α : Type u} (m : List Bool) :
    applyMask ([] : List α) m = [] := by
  cases m <;> rfl

theorem applyMask_nil_right {α : Type u} (l : List α) : applyMask l [] = [] := by
  cases l <;> rfl

theorem applyMask_cons {α : Type u} (a : α) (as : List α) (b : Bool) (bs : List Bool) :
    applyMask (a :: as) (b :: bs) =
      if b then a :: applyMask as bs else applyMask as bs := rfl

theorem applyMask_sublist {α : Type u} (l : List α) (m : List Bool) :
    List.Sublist (applyMask l m) l := by
  induction l generalizing m with
  | nil => simp [applyMask_nil_left]
  | cons a as ih =>
    cases m with
    | nil => simp [applyMask_nil_right]
    | cons b bs =>
      rw [applyMask_cons]
      cases b with
      | true => simpa using (ih bs).cons₂ a
      | false => simpa using (ih bs).cons a

theorem applyMask_length_le {α : Type u} (l : List α) (m : List Bool) :
    (applyMask l m).length ≤ l.length :=
  (applyMask_sublist l m).length_le

theorem applyMask_length_eq {α : Type u} {β : Type v} (l₁ : List α) (l₂ : List β)
    (m : List Bool) (h : l₁.length = l₂.length) :
    (applyMask l₁ m).length = (applyMask l₂ m).length := by
  induction m generalizing l₁ l₂ with
  | nil => simp [applyMask_nil_right]
  | cons b bs ih =>
    cases l₁ with
    | nil =>
      cases l₂ with
      | nil => rfl
      | cons c cs => simp at h
    | cons a as =>
      cases l₂ with
      | nil => simp at h
      | cons c cs =>
        simp only [List.length_cons, Nat.succ.injEq] at h
        rw [applyMask_cons, applyMask_cons]
        cases b <;> simp [ih as cs h]

theorem applyMask_zip {α : Type u} {β : Type v} (l₁ : List α) (l₂ : List β)
    (m : List Bool) :
    applyMask (l₁.zip l₂) m = (applyMask l₁ m).zip (applyMask l₂ m) := by
  induction m generalizing l₁ l₂ with
  | nil => simp [applyMask_nil_right]
  | cons b bs ih =>
    cases l₁ with
    | nil => simp [applyMask_nil_left]
    | cons a as =>
      cases l₂ with
      | nil =>
        rw [List.zip_nil_right, applyMask_nil_left, applyMask_cons]
        cases b <;> simp [List.zip_nil_right, applyMask_nil_left]
      | cons c cs =>
        rw [List.zip_cons_cons, applyMask_cons, applyMask_cons, applyMask_cons]
        cases b <;> simp [ih as cs]

theorem applyMask_map_pred {α : Type u} {β : Type v} (l : List α) (d : List β)
    (g : β → Bool) (h : l.length = d.length) :
    applyMask l (d.map g) = ((l.zip d).filter (fun p => g p.2)).map Prod.fst := by
  induction l generalizing d with
  | nil => simp [applyMask_nil_left]
  | cons a as ih =>
    cases d with
    | nil => simp at h
    | cons b bs =>
      simp only [List.length_cons, Nat.succ.injEq] at h
      rw [List.map_cons, applyMask_cons, List.zip_cons_cons, List.filter_cons]
      cases hg : g b <;> simp [hg, ih bs h]

/-! Helper lemmas about one clip iteration. -/

theorem clipIter_fst (fitfn : FitFn) (sq : ℚ → ℚ) (cfg : Config) (ctrl : Ctrl)
    (s : FitSample) :
    (clipIter fitfn sq cfg ctrl s).1 =
      ⟨applyMask s.x (keepMask fitfn sq cfg ctrl s),
       applyMask s.y (keepMask fitfn sq cfg ctrl s),
       applyMask s.apCorrData (keepMask fitfn sq cfg ctrl s),
       applyMask s.indices (keepMask fitfn sq cfg ctrl s)⟩ := rfl

theorem clipIter_snd (fitfn : FitFn) (sq : ℚ → ℚ) (cfg : Config) (ctrl : Ctrl)
    (s : FitSample) :
    (clipIter fitfn sq cfg ctrl s).2 =
      rmsOf sq (fitfn s.x s.y s.apCorrData ctrl) s := rfl

theorem residuals_length (f : Surface) (s : FitSample)
    (h1 : s.x.length = s.y.length) (h2 : s.x.length = s.apCorrData.length) :
    (residuals f s).length = s.x.length := by
  simp only [residuals, List.length_zipWith, List.length_zip]
  omega

theorem keepMask_length (fitfn : FitFn) (sq : ℚ → ℚ) (cfg : Config) (ctrl : Ctrl)
    (s : FitSample) (h1 : s.x.length = s.y.length)
    (h2 : s.x.length = s.apCorrData.length) :
    (keepMask fitfn sq cfg ctrl s).length = s.x.length := by
  simp only [keepMask, List.length_map]
  exact residuals_length _ _ h1 h2

theorem clipStep_wf (fitfn : FitFn) (sq : ℚ → ℚ) (cfg : Config) (ctrl : Ctrl)
    (s : FitSample) (h : Wf s) : Wf (clipStep fitfn sq cfg ctrl s) := by
  obtain ⟨h1, h2, h3⟩ := h
  refine ⟨?_, ?_, ?_⟩ <;>
    simp only [clipStep, clipIter_fst] <;>
    [exact applyMask_length_eq _ _ _ h1; exact applyMask_length_eq _ _ _ h2;
     exact applyMask_length_eq _ _ _ h3]

theorem clipStep_length_le (fitfn : FitFn) (sq : ℚ → ℚ) (cfg : Config) (ctrl : Ctrl)
    (s : FitSample) : (clipStep fitfn sq cfg ctrl s).x.length ≤ s.x.length := by
  simp only [clipStep, clipIter_fst]
  exact applyMask_length_le _ _

theorem clipStep_zip4 (fitfn : FitFn) (sq : ℚ → ℚ) (cfg : Config) (ctrl : Ctrl)
    (s : FitSample) :
    zip4 (clipStep fitfn sq cfg ctrl s) =
      applyMask (zip4 s) (keepMask fitfn sq cfg ctrl s) := by
  simp only [clipStep, clipIter_fst, zip4, applyMask_zip]

theorem clipStep_zip4_sublist (fitfn : FitFn) (sq : ℚ → ℚ) (cfg : Config)
    (ctrl : Ctrl) (s : FitSample) :
    List.Sublist (zip4 (clipStep fitfn sq cfg ctrl s)) (zip4 s) := by
  rw [clipStep_zip4]
  exact applyMask_sublist _ _

theorem clipStep_indices_sublist (fitfn : FitFn) (sq : ℚ → ℚ) (cfg : Config)
    (ctrl : Ctrl) (s : FitSample) :
    List.Sublist (clipStep fitfn sq cfg ctrl s).indices s.indices := by
  simp only [clipStep, clipIter_fst]
  exact applyMask_sublist _ _

/-! Helper lemmas about the clip loop. -/

theorem loopSample_zero (fitfn : FitFn) (sq : ℚ → ℚ) (cfg : Config) (ctrl : Ctrl)
    (s : FitSample) : loopSample fitfn sq cfg ctrl 0 s = s := rfl

theorem loopSample_succ (fitfn : FitFn) (sq : ℚ → ℚ) (cfg : Config) (ctrl : Ctrl)
    (k : ℕ) (s : FitSample) :
    loopSample fitfn sq cfg ctrl (k + 1) s =
      loopSample fitfn sq cfg ctrl k (clipStep fitfn sq cfg ctrl s) := rfl

theorem loopSample_succ_outer (fitfn : FitFn) (sq : ℚ → ℚ) (cfg : Config)
    (ctrl : Ctrl) (k : ℕ) (s : FitSample) :
    loopSample fitfn sq cfg ctrl (k + 1) s =
      clipStep fitfn sq cfg ctrl (loopSample fitfn sq cfg ctrl k s) := by
  induction k generalizing s with
  | zero => rfl
  | succ k ih =>
    rw [loopSample_succ, ih, loopSample_succ]

theorem clipLoop_zero (fitfn : FitFn) (sq : ℚ → ℚ) (cfg : Config) (ctrl : Ctrl)
    (s : FitSample) (e : Option NFloat) (tr : List FitSample) :
    clipLoop fitfn sq cfg ctrl 0 s e tr = ⟨s, e, tr⟩ := rfl

theorem clipLoop_succ (fitfn : FitFn) (sq : ℚ → ℚ) (cfg : Config) (ctrl : Ctrl)
    (k : ℕ) (s : FitSample) (e : Option NFloat) (tr : List FitSample) :
    clipLoop fitfn sq cfg ctrl (k + 1) s e tr =
      clipLoop fitfn sq cfg ctrl k (clipStep fitfn sq cfg ctrl s)
        (some (clipIter fitfn sq cfg ctrl s).2) (tr ++ [s]) := rfl

theorem clipLoop_one (fitfn : FitFn) (sq : ℚ → ℚ) (cfg : Config) (ctrl : Ctrl)
    (s : FitSample) (e : Option NFloat) (tr : List FitSample) :
    clipLoop fitfn sq cfg ctrl 1 s e tr =
      ⟨clipStep fitfn sq cfg ctrl s, some (clipIter fitfn sq cfg ctrl s).2,
       tr ++ [s]⟩ := rfl

theorem clipLoop_sample (fitfn : FitFn) (sq : ℚ → ℚ) (cfg : Config) (ctrl : Ctrl)
    (k : ℕ) (s : FitSample) (e : Option NFloat) (tr : List FitSample) :
    (clipLoop fitfn sq cfg ctrl k s e tr).sample = loopSample fitfn sq cfg ctrl k s := by
  induction k generalizing s e tr with
  | zero => rfl
  | succ k ih =>
    rw [clipLoop_succ, ih, loopSample_succ]

theorem clipLoop_errBinding_succ (fitfn : FitFn) (sq : ℚ → ℚ) (cfg : Config)
    (ctrl : Ctrl) (k : ℕ) (s : FitSample) (e : Option NFloat) (tr : List FitSample) :
    (clipLoop fitfn sq cfg ctrl (k + 1) s e tr).errBinding =
      some ((clipIter fitfn sq cfg ctrl (loopSample fitfn sq cfg ctrl k s)).2) := by
  induction k generalizing s e tr with
  | zero => rfl
  | succ k ih =>
    rw [clipLoop_succ, ih, ← loopSample_succ]

theorem clipLoop_trace (fitfn : FitFn) (sq : ℚ → ℚ) (cfg : Config) (ctrl : Ctrl)
    (k : ℕ) (s : FitSample) (e : Option NFloat) (tr : List FitSample) :
    (clipLoop fitfn sq cfg ctrl k s e tr).trace =
      tr ++ (List.range k).map (fun i => loopSample fitfn sq cfg ctrl i s) := by
  induction k generalizing s e tr with
  | zero => simp [clipLoop_zero]
  | succ k ih =>
    rw [clipLoop_succ, ih, List.range_succ_eq_map]
    simp only [List.map_cons, List.map_map, List.append_assoc, List.singleton_append]
    rfl

/-! Invariants of the iterated clip loop. -/

theorem loopSample_wf (fitfn : FitFn) (sq : ℚ → ℚ) (cfg : Config) (ctrl : Ctrl)
    (k : ℕ) (s : FitSample) (h : Wf s) : Wf (loopSample fitfn sq cfg ctrl k s) := by
  induction k generalizing s with
  | zero => exact h
  | succ k ih => exact ih _ (clipStep_wf _ _ _ _ _ h)

theorem loopSample_zip4_sublist (fitfn : FitFn) (sq : ℚ → ℚ) (cfg : Config)
    (ctrl : Ctrl) (k : ℕ) (s : FitSample) :
    List.Sublist (zip4 (loopSample fitfn sq cfg ctrl k s)) (zip4 s) := by
  induction k generalizing s with
  | zero => exact List.Sublist.refl _
  | succ k ih =>
    rw [loopSample_succ]
    exact (ih _).trans (clipStep_zip4_sublist _ _ _ _ _)

theorem loopSample_indices_sublist (fitfn : FitFn) (sq : ℚ → ℚ) (cfg : Config)
    (ctrl : Ctrl) (k : ℕ) (s : FitSample) :
    List.Sublist (loopSample fitfn sq cfg ctrl k s).indices s.indices := by
  induction k generalizing s with
  | zero => exact List.Sublist.refl _
  | succ k ih =>
    rw [loopSample_succ]
    exact (ih _).trans (clipStep_indices_sublist _ _ _ _ _)

/-! Lemmas about the degree-reduction loop. -/

theorem adaptDegree_fuel_zero (cs : ℕ → ℕ → ℕ) (n : ℕ) (m : ℤ) (p : Ctrl) :
    adaptDegree cs n m 0 p = none := rfl

theorem adaptDegree_succ (cs : ℕ → ℕ → ℕ) (n : ℕ) (m : ℤ) (fuel : ℕ) (ox oy : ℕ) :
    adaptDegree cs n m (fuel + 1) (ox, oy) =
      if (n : ℤ) - cs ox oy < m then
        adaptDegree cs n m fuel
          (if ox > 0 then ox - 1 else ox, if oy > 0 then oy - 1 else oy)
      else some (ox, oy) := rfl

theorem adaptDegree_terminates (cs : ℕ → ℕ → ℕ) (n : ℕ) (m : ℤ)
    (h1 : cs 0 0 = 1) (h2 : m ≤ (n : ℤ) - 1) :
    ∀ (fuel ox oy : ℕ), ox + oy < fuel →
      ∃ p : Ctrl, adaptDegree cs n m fuel (ox, oy) = some p ∧
        p.1 ≤ ox ∧ p.2 ≤ oy ∧ ¬ ((n : ℤ) - cs p.1 p.2 < m) := by
  intro fuel
  induction fuel with
  | zero => intro ox oy hf; omega
  | succ fuel ih =>
    intro ox oy hf
    rw [adaptDegree_succ]
    by_cases hg : (n : ℤ) - cs ox oy < m
    · rw [if_pos hg]
      rcases Nat.eq_zero_or_pos (ox + oy) with hz | hp
      · have hox : ox = 0 := by omega
        have hoy : oy = 0 := by omega
        subst hox; subst hoy
        rw [h1] at hg
        omega
      · have hlt : (if ox > 0 then ox - 1 else ox) + (if oy > 0 then oy - 1 else oy)
            < fuel := by
          by_cases hx : ox > 0 <;> by_cases hy : oy > 0 <;> simp [hx, hy] <;> omega
        obtain ⟨p, hp', hb1, hb2, hb3⟩ := ih _ _ hlt
        refine ⟨p, hp', ?_, ?_, hb3⟩
        · by_cases hx : ox > 0 <;> simp [hx] at hb1 <;> omega
        · by_cases hy : oy > 0 <;> simp [hy] at hb2 <;> omega
    · rw [if_neg hg]
      exact ⟨(ox, oy), rfl, le_refl _, le_refl _, hg⟩

/-! Lemmas about index-wise record update. -/

theorem setUsed_setUsed (r : Record) : setUsed (setUsed r) = setUsed r := rfl

theorem modifyAt_length {α : Type u} (f : α → α) :
    ∀ (l : List α) (i : ℕ), (modifyAt l i f).length = l.length := by
  intro l
  induction l with
  | nil => intro i; rfl
  | cons a as ih =>
    intro i
    cases i with
    | zero => rfl
    | succ i => simp [modifyAt, ih i]

theorem getD_modifyAt {α : Type u} (f : α → α) (dflt : α) :
    ∀ (l : List α) (i j : ℕ),
      (modifyAt l i f).getD j dflt =
        if i = j ∧ j < l.length then f (l.getD j dflt) else l.getD j dflt := by
  intro l
  induction l with
  | nil => intro i j; simp [modifyAt]
  | cons a as ih =>
    intro i j
    cases i with
    | zero =>
      cases j with
      | zero => simp [modifyAt]
      | succ j => simp [modifyAt]
    | succ i =>
      cases j with
      | zero => simp [modifyAt]
      | succ j =>
        simp only [modifyAt, List.getD_cons_succ, ih i j, List.length_cons]
        by_cases hij : i = j <;> by_cases hlen : j < as.length <;>
          simp [hij, hlen] <;> omega

theorem markUsed_nil (recs : List Record) : markUsed recs [] = recs := rfl

theorem markUsed_cons (recs : List Record) (i : ℕ) (is : List ℕ) :
    markUsed recs (i :: is) = markUsed (modifyAt recs i setUsed) is := rfl

theorem markUsed_length (idxs : List ℕ) :
    ∀ recs : List Record, (markUsed recs idxs).length = recs.length := by
  induction idxs with
  | nil => intro recs; rfl
  | cons i is ih =>
    intro recs
    rw [markUsed_cons, ih, modifyAt_length]

theorem getD_markUsed (idxs : List ℕ) :
    ∀ (recs : List Record) (j : ℕ),
      (markUsed recs idxs).getD j anyRec =
        if j ∈ idxs ∧ j < recs.length then setUsed (recs.getD j anyRec)
        else recs.getD j anyRec := by
  induction idxs with
  | nil => intro recs j; simp [markUsed_nil]
  | cons i is ih =>
    intro recs j
    rw [markUsed_cons]
    simp only [ih, getD_modifyAt, modifyAt_length]
    by_cases hji : i = j
    · subst hji
      by_cases hjm : i ∈ is <;> by_cases hlen : i < recs.length <;>
        simp [hjm, hlen, setUsed_setUsed, List.mem_cons]
    · by_cases hjm : j ∈ is <;> by_cases hlen : j < recs.length <;>
        simp [hji, Ne.symm hji, hjm, hlen, List.mem_cons]

/-! A small lemma about indexing a mapped range. -/

theorem getD_range_map {α : Type u} (g : ℕ → α) (d : α) (n i : ℕ) (h : i < n) :
    ((List.range n).map g).getD i d = g i := by
  rw [List.getD_eq_get?, List.get?_map, List.get?_range h]
  rfl

/-! Characterizations of the per-field pipeline. -/

theorem processField_dof_fail_not_allowed (fitfn : FitFn) (sq : ℚ → ℚ)
    (cs : ℕ → ℕ → ℕ) (cfg : Config) (fi : FieldInput)
    (hd : ((subset2Of fi.subset1).length : ℤ) - 1 < cfg.minDegreesOfFreedom)
    (hn : fi.name ∉ cfg.allowFailure) :
    processField fitfn sq cs cfg fi =
      .error (.insufficientData fi.name (subset2Of fi.subset1).length
        (cfg.minDegreesOfFreedom + 1)) := by
  simp only [processField]
  rw [if_pos hd, if_neg hn]

theorem processField_dof_fail_allowed (fitfn : FitFn) (sq : ℚ → ℚ)
    (cs : ℕ → ℕ → ℕ) (cfg : Config) (fi : FieldInput)
    (hd : ((subset2Of fi.subset1).length : ℤ) - 1 < cfg.minDegreesOfFreedom)
    (hn : fi.name ∈ cfg.allowFailure) :
    processField fitfn sq cs cfg fi = .ok none := by
  simp only [processField]
  rw [if_pos hd, if_pos hn]

theorem processField_dof_ok_not_insufficient (fitfn : FitFn) (sq : ℚ → ℚ)
    (cs : ℕ → ℕ → ℕ) (cfg : Config) (fi : FieldInput)
    (hd : ¬ ((subset2Of fi.subset1).length : ℤ) - 1 < cfg.minDegreesOfFreedom)
    (nm : String) (k : ℕ) (r : ℤ) :
    processField fitfn sq cs cfg fi ≠ .error (.insufficientData nm k r) := by
  simp only [processField]
  rw [if_neg hd]
  split
  · intro heq
    simp at heq
  · split
    · intro heq
      simp at heq
    · intro heq
      exact Except.noConfusion heq

theorem processField_ok_inv (fitfn : FitFn) (sq : ℚ → ℚ) (cs : ℕ → ℕ → ℕ)
    (cfg : Config) (fi : FieldInput) (out : FieldOutput)
    (h : processField fitfn sq cs cfg fi = .ok (some out)) :
    ¬ (((subset2Of fi.subset1).length : ℤ) - 1 < cfg.minDegreesOfFreedom) ∧
    adaptDegree cs (subset2Of fi.subset1).length cfg.minDegreesOfFreedom
      (cfg.orderX + cfg.orderY + 1) (cfg.orderX, cfg.orderY) = some out.ctrl ∧
    (clipLoop fitfn sq cfg out.ctrl cfg.numIter (buildArrays (subset2Of fi.subset1))
        none []).errBinding = some out.errScalar ∧
    out.surface = fitfn
      (loopSample fitfn sq cfg out.ctrl cfg.numIter (buildArrays (subset2Of fi.subset1))).x
      (loopSample fitfn sq cfg out.ctrl cfg.numIter (buildArrays (subset2Of fi.subset1))).y
      (loopSample fitfn sq cfg out.ctrl cfg.numIter
        (buildArrays (subset2Of fi.subset1))).apCorrData
      out.ctrl ∧
    out.indices = (loopSample fitfn sq cfg out.ctrl cfg.numIter
      (buildArrays (subset2Of fi.subset1))).indices ∧
    out.fitTrace = (List.range (cfg.numIter + 1)).map
      (fun i => loopSample fitfn sq cfg out.ctrl i (buildArrays (subset2Of fi.subset1))) ∧
    out.marked = markUsed (subset2Of fi.subset1)
      (loopSample fitfn sq cfg out.ctrl cfg.numIter
        (buildArrays (subset2Of fi.subset1))).indices := by
  simp only [processField] at h
  split at h
  · split at h <;> simp at h
  · rename_i hdof
    split at h
    · simp at h
    · rename_i ctrl hadapt
      split at h
      · simp at h
      · rename_i e herr
        simp only [Except.ok.injEq, Option.some.injEq] at h
        subst h
        refine ⟨hdof, hadapt, herr, ?_, ?_, ?_, ?_⟩
        · simp only [clipLoop_sample]
        · simp only [clipLoop_sample]
        · rw [clipLoop_trace, clipLoop_sample, List.range_succ, List.map_append,
            List.map_cons, List.map_nil, List.nil_append]
        · simp only [clipLoop_sample]

/-! Concrete evaluation of the example runs. -/

theorem subset2_fieldEx : subset2Of fieldEx.subset1 = fieldEx.subset1 := by
  norm_num [subset2Of, isGoodMask, fieldEx, recEx, applyMask, nfinite, ngtB,
    List.zipWith_cons_cons]

theorem subset2_s1Ex : subset2Of s1Ex = [recEx 3] := by
  norm_num [subset2Of, isGoodMask, s1Ex, recEx, applyMask, nfinite, ngtB,
    List.zipWith_cons_cons]

theorem buildArrays_fieldEx : buildArrays fieldEx.subset1 = s0Run := by
  have hr : List.range 4 = [0, 1, 2, 3] := by decide
  norm_num [buildArrays, fieldEx, recEx, s0Run, ndiv, hr]

theorem clipIter_run : clipIter fit0 sqEx cfgEx (0, 0) s0Run = (s1Run, some 1) := by
  norm_num [clipIter, fit0, s0Run, s1Run, cfgEx, residuals, nsub, nsq, nmul, nmean,
    nsum, nadd, ndiv, nroot, sqEx, nabs, nleB, applyMask, List.zipWith_cons_cons,
    List.zip_cons_cons]

theorem clipLoop_run :
    clipLoop fit0 sqEx cfgEx (0, 0) 1 s0Run none [] = ⟨s1Run, some (some 1), [s0Run]⟩ := by
  rw [clipLoop_one]
  simp only [clipStep, clipIter_run, List.nil_append]

theorem adapt_run : adaptDegree csEx 4 1 1 (0, 0) = some (0, 0) := by decide

theorem markUsed_run : markUsed fieldEx.subset1 [0, 1, 2] = markedRun := by decide

theorem processField_run : processField fit0 sqEx csEx cfgEx fieldEx = .ok (some outRun) := by
  simp only [processField, subset2_fieldEx, buildArrays_fieldEx,
    (show fieldEx.subset1.length = 4 from rfl),
    (show cfgEx.minDegreesOfFreedom = 1 from rfl),
    (show cfgEx.numIter = 1 from rfl),
    (show cfgEx.orderX = 0 from rfl), (show cfgEx.orderY = 0 from rfl)]
  rw [if_neg (by norm_num)]
  rw [show (0 + 0 + 1 : ℕ) = 1 from rfl, adapt_run]
  simp only [clipLoop_run, outRun, s1Run, markUsed_run]
  rfl

theorem rms_final_run : rmsOf sqEx outRun.surface s1Run = some 0 := by
  norm_num [rmsOf, outRun, fit0, s1Run, residuals, nsub, nsq, nmul, nmean, nsum,
    nadd, ndiv, nroot, sqEx, List.zip_cons_cons, List.zipWith_cons_cons]

/-! Further small helpers used by the claim theorems. -/

theorem adaptDegree_fuel_mono (cs : ℕ → ℕ → ℕ) (n : ℕ) (m : ℤ) :
    ∀ (fuel ox oy : ℕ) (p : Ctrl) (fuel' : ℕ),
      adaptDegree cs n m fuel (ox, oy) = some p → fuel ≤ fuel' →
      adaptDegree cs n m fuel' (ox, oy) = some p := by
  intro fuel
  induction fuel with
  | zero =>
    intro ox oy p fuel' h
    rw [adaptDegree_fuel_zero] at h
    exact absurd h (by simp)
  | succ fuel ih =>
    intro ox oy p fuel' h hf
    obtain ⟨fuel'', rfl⟩ : ∃ f, fuel' = f + 1 := ⟨fuel' - 1, by omega⟩
    rw [adaptDegree_succ] at h ⊢
    by_cases hg : (n : ℤ) - cs ox oy < m
    · rw [if_pos hg] at h ⊢
      exact ih _ _ p _ h (by omega)
    · rw [if_neg hg] at h ⊢
      exact h

theorem applyMask_map_self {α : Type u} (l : List α) (g : α → Bool) :
    applyMask l (l.map g) = l.filter g := by
  induction l with
  | nil => rfl
  | cons a as ih =>
    rw [List.map_cons, applyMask_cons, List.filter_cons]
    cases hg : g a <;> simp [hg, ih]

theorem isGoodMask_eq_map (subset1 : List Record) :
    isGoodMask subset1 =
      subset1.map (fun r => !r.flag && (nfinite r.flux && ngtB r.flux (some 0))) := by
  induction subset1 with
  | nil => rfl
  | cons a as ih =>
    simp only [isGoodMask, List.map_cons, List.zipWith_cons_cons] at ih ⊢
    rw [ih]

theorem getD_map {α : Type u} {β : Type v} (f : α → β) (d : β) (a0 : α) :
    ∀ (l : List α) (n : ℕ), n < l.length →
      (l.map f).getD n d = f (l.getD n a0) := by
  intro l
  induction l with
  | nil =>
    intro n h
    simp at h
  | cons a as ih =>
    intro n h
    cases n with
    | zero => rfl
    | succ n =>
      simp only [List.map_cons, List.getD_cons_succ]
      exact ih n (by simpa using h)

theorem runTask_cons_error (fitfn : FitFn) (sq : ℚ → ℚ) (cs : ℕ → ℕ → ℕ)
    (cfg : Config) (fi : FieldInput) (rest : List FieldInput) (e : RunError)
    (h : processField fitfn sq cs cfg fi = .error e) :
    runTask fitfn sq cs cfg (fi :: rest) = .error e := by
  simp only [runTask, h]

theorem runTask_skipped_absent (fitfn : FitFn) (sq : ℚ → ℚ) (cs : ℕ → ℕ → ℕ)
    (cfg : Config) (nm : String) :
    ∀ (fis : List FieldInput) (out : List (String × FieldOutput)),
      runTask fitfn sq cs cfg fis = .ok out →
      (∀ fj ∈ fis, fj.name = nm →
        ((subset2Of fj.subset1).length : ℤ) - 1 < cfg.minDegreesOfFreedom ∧
          nm ∈ cfg.allowFailure) →
      nm ∉ out.map Prod.fst := by
  intro fis
  induction fis with
  | nil =>
    intro out h hall
    simp only [runTask, Except.ok.injEq] at h
    subst h
    simp
  | cons fi rest ih =>
    intro out h hall
    simp only [runTask] at h
    split at h
    · exact absurd h (by simp)
    · exact ih out h (fun fj hj => hall fj (List.mem_cons_of_mem _ hj))
    · rename_i o hok
      split at h
      · exact absurd h (by simp)
      · rename_i m hm
        simp only [Except.ok.injEq] at h
        subst h
        by_cases hname : fi.name = nm
        · obtain ⟨hlt, hmem⟩ := hall fi (List.mem_cons_self _ _) hname
          have hskip := processField_dof_fail_allowed fitfn sq cs cfg fi hlt
            (by rw [hname]; exact hmem)
          rw [hskip] at hok
          simp at hok
        · intro hmm
          simp only [List.map_cons, List.mem_cons] at hmm
          rcases hmm with hmm | hmm
          · exact hname hmm.symm
          · exact ih m hm (fun fj hj => hall fj (List.mem_cons_of_mem _ hj)) hmm

/-! The claims. -/

/-- Claim C1, counterexample: in the four-point run with one clip iteration
the stored error scalar is 1 (the RMS computed in the loop iteration over the
pre-clip working set), while the RMS of the terminal fit's residuals over the
final working set is 0, so the stored error is not recomputed after the
terminal fit. -/
theorem C1_counterexample :
    storedErrOf (processField fit0 sqEx csEx cfgEx fieldEx) = some (some 1) ∧
    finalRMSOf sqEx (processField fit0 sqEx csEx cfgEx fieldEx) = some (some 0) ∧
    storedErrOf (processField fit0 sqEx csEx cfgEx fieldEx) ≠
      finalRMSOf sqEx (processField fit0 sqEx csEx cfgEx fieldEx) := by
  have e1 : storedErrOf (processField fit0 sqEx csEx cfgEx fieldEx) = some (some 1) := by
    rw [processField_run]
    rfl
  have e2 : finalRMSOf sqEx (processField fit0 sqEx csEx cfgEx fieldEx) = some (some 0) := by
    rw [processField_run]
    show some (rmsOf sqEx outRun.surface
      (outRun.fitTrace.getD (outRun.fitTrace.length - 1) sEmpty)) = some (some 0)
    rw [show outRun.fitTrace.getD (outRun.fitTrace.length - 1) sEmpty = s1Run from rfl,
      rms_final_run]
  refine ⟨e1, e2, ?_⟩
  rw [e1, e2]
  norm_num

/-- Claim C1, amended: for every field that reaches the clip loop (so
`numIter ≥ 1`), the scalar stored as the constant error surface is the RMS
computed inside the last loop iteration — the square root of the mean squared
residual of that iteration's fit, evaluated over the working set before that
iteration's clip — rather than being recomputed after the terminal fit. -/
theorem C1_theorem (fitfn : FitFn) (sq : ℚ → ℚ) (cs : ℕ → ℕ → ℕ) (cfg : Config)
    (fi : FieldInput) (out : FieldOutput)
    (h : processField fitfn sq cs cfg fi = .ok (some out)) (h1 : 1 ≤ cfg.numIter) :
    out.errScalar =
      rmsOf sq
        (fitfn (out.fitTrace.getD (cfg.numIter - 1) sEmpty).x
               (out.fitTrace.getD (cfg.numIter - 1) sEmpty).y
               (out.fitTrace.getD (cfg.numIter - 1) sEmpty).apCorrData out.ctrl)
        (out.fitTrace.getD (cfg.numIter - 1) sEmpty) ∧
    out.errScalar =
      (clipIter fitfn sq cfg out.ctrl (out.fitTrace.getD (cfg.numIter - 1) sEmpty)).2 := by
  obtain ⟨-, -, herr, -, -, htrace, -⟩ := processField_ok_inv _ _ _ _ _ _ h
  obtain ⟨k, hk⟩ : ∃ k, cfg.numIter = k + 1 := ⟨cfg.numIter - 1, by omega⟩
  rw [hk] at herr
  rw [clipLoop_errBinding_succ] at herr
  have hg : out.fitTrace.getD (cfg.numIter - 1) sEmpty =
      loopSample fitfn sq cfg out.ctrl k (buildArrays (subset2Of fi.subset1)) := by
    rw [htrace, hk]
    exact getD_range_map _ _ _ _ (by omega)
  have he : out.errScalar =
      (clipIter fitfn sq cfg out.ctrl
        (loopSample fitfn sq cfg out.ctrl k (buildArrays (subset2Of fi.subset1)))).2 :=
    (Option.some.inj herr).symm
  rw [hg, he]
  exact ⟨clipIter_snd _ _ _ _ _, rfl⟩

/-- Claim C1, witness: the amended statement evaluated on the four-point run,
whose stored error scalar is the RMS of the single loop iteration's fit over
its pre-clip working set. -/
theorem C1_witness :
    outRun.errScalar =
      rmsOf sqEx
        (fit0 (outRun.fitTrace.getD 0 sEmpty).x (outRun.fitTrace.getD 0 sEmpty).y
              (outRun.fitTrace.getD 0 sEmpty).apCorrData outRun.ctrl)
        (outRun.fitTrace.getD 0 sEmpty) :=
  (C1_theorem fit0 sqEx csEx cfgEx fieldEx outRun processField_run (by decide)).1

/-- Claim C2, counterexample: with `numIter = 1` the fit inside the last loop
iteration sees 4 points while the terminal fit sees only 3, so the terminal
fit does not operate on the same working data as the fit inside the last loop
iteration. -/
theorem C2_counterexample :
    fitTraceLens (processField fit0 sqEx csEx cfgEx fieldEx) = [4, 3] ∧
    cfgEx.numIter = 1 := by
  constructor
  · rw [processField_run]
    rfl
  · rfl

/-- Claim C2, amended: exactly `numIter + 1` fits are performed per completed
field; the retained surface is the terminal fit's, and each fit after the
first (the terminal fit included) operates on the working set produced by
clipping the previous fit's working set — equal to the previous fit's data
only when that clip retained every point. -/
theorem C2_theorem (fitfn : FitFn) (sq : ℚ → ℚ) (cs : ℕ → ℕ → ℕ) (cfg : Config)
    (fi : FieldInput) (out : FieldOutput)
    (h : processField fitfn sq cs cfg fi = .ok (some out)) :
    out.fitTrace.length = cfg.numIter + 1 ∧
    out.surface = fitfn (out.fitTrace.getD cfg.numIter sEmpty).x
      (out.fitTrace.getD cfg.numIter sEmpty).y
      (out.fitTrace.getD cfg.numIter sEmpty).apCorrData out.ctrl ∧
    (∀ i, i < cfg.numIter →
      out.fitTrace.getD (i + 1) sEmpty =
        clipStep fitfn sq cfg out.ctrl (out.fitTrace.getD i sEmpty)) := by
  obtain ⟨-, -, -, hsurf, -, htrace, -⟩ := processField_ok_inv _ _ _ _ _ _ h
  refine ⟨?_, ?_, ?_⟩
  · rw [htrace]
    simp
  · rw [htrace, getD_range_map _ _ _ _ (by omega)]
    exact hsurf
  · intro i hi
    rw [htrace, getD_range_map _ _ _ _ (by omega), getD_range_map _ _ _ _ (by omega),
      loopSample_succ_outer]

/-- Claim C2, witness: the amended statement evaluated on the four-point run:
its trace has `numIter + 1 = 2` fit calls. -/
theorem C2_witness : outRun.fitTrace.length = cfgEx.numIter + 1 :=
  (C2_theorem fit0 sqEx csEx cfgEx fieldEx outRun processField_run).1

/-- Claim C3, counterexample: with `minDegreesOfFreedom = 1`, a field with
exactly 1 usable point (equal to `m`, not in the allow-failure set) does
trigger the insufficiency error, contradicting the claim that `m` usable
points never trigger it. -/
theorem C3_counterexample :
    errOf (processField fit0 sqEx csEx cfgEx fieldEx1) =
      some (.insufficientData "base_PsfFlux" 1 2) ∧
    ((subset2Of fieldEx1.subset1).length : ℤ) = cfgEx.minDegreesOfFreedom := by
  exact ⟨by decide, by decide⟩

/-- Claim C3, amended: for every configured `minDegreesOfFreedom = m`, a field
with exactly `m + 1` usable points after narrowing never triggers the
insufficiency error, and a field with exactly `m` usable points always
triggers it (or is skipped when the field name is in the allow-failure set). -/
theorem C3_theorem (fitfn : FitFn) (sq : ℚ → ℚ) (cs : ℕ → ℕ → ℕ) (cfg : Config)
    (fi : FieldInput) :
    (((subset2Of fi.subset1).length : ℤ) = cfg.minDegreesOfFreedom + 1 →
      ∀ (nm : String) (k : ℕ) (r : ℤ),
        processField fitfn sq cs cfg fi ≠ .error (.insufficientData nm k r)) ∧
    (((subset2Of fi.subset1).length : ℤ) = cfg.minDegreesOfFreedom →
      fi.name ∉ cfg.allowFailure →
      processField fitfn sq cs cfg fi =
        .error (.insufficientData fi.name (subset2Of fi.subset1).length
          (cfg.minDegreesOfFreedom + 1))) ∧
    (((subset2Of fi.subset1).length : ℤ) = cfg.minDegreesOfFreedom →
      fi.name ∈ cfg.allowFailure →
      processField fitfn sq cs cfg fi = .ok none) := by
  refine ⟨?_, ?_, ?_⟩
  · intro hlen nm k r
    exact processField_dof_ok_not_insufficient _ _ _ _ _ (by omega) nm k r
  · intro hlen hn
    exact processField_dof_fail_not_allowed _ _ _ _ _ (by omega) hn
  · intro hlen hn
    exact processField_dof_fail_allowed _ _ _ _ _ (by omega) hn

/-- Claim C3, witness: a field with exactly `m = 1` usable point whose name is
in the allow-failure set is skipped rather than raising. -/
theorem C3_witness : processField fit0 sqEx csEx cfgAllow fieldEx1 = .ok none :=
  (C3_theorem fit0 sqEx csEx cfgAllow fieldEx1).2.2 (by decide) (by simp [cfgAllow, fieldEx1])

/-- Claim C4: before any fitting, using the full pre-clip size of `subset2`:
if `len(subset2) - 1 < minDegreesOfFreedom` then a field not in the
allow-failure set raises the fatal insufficiency error naming the field and
the counts (aborting the whole run), a field in the set is skipped (and its
name is absent from the output map), and the outcome does not depend on the
fit machinery; if `len(subset2) - 1 ≥ minDegreesOfFreedom` no insufficiency
error is raised for that field. -/
theorem C4_theorem (fitfn : FitFn) (sq : ℚ → ℚ) (cs : ℕ → ℕ → ℕ) (cfg : Config)
    (fi : FieldInput) :
    ((((subset2Of fi.subset1).length : ℤ) - 1 < cfg.minDegreesOfFreedom) →
      fi.name ∉ cfg.allowFailure →
      processField fitfn sq cs cfg fi =
        .error (.insufficientData fi.name (subset2Of fi.subset1).length
          (cfg.minDegreesOfFreedom + 1))) ∧
    ((((subset2Of fi.subset1).length : ℤ) - 1 < cfg.minDegreesOfFreedom) →
      fi.name ∉ cfg.allowFailure → ∀ rest : List FieldInput,
      runTask fitfn sq cs cfg (fi :: rest) =
        .error (.insufficientData fi.name (subset2Of fi.subset1).length
          (cfg.minDegreesOfFreedom + 1))) ∧
    ((((subset2Of fi.subset1).length : ℤ) - 1 < cfg.minDegreesOfFreedom) →
      fi.name ∈ cfg.allowFailure → processField fitfn sq cs cfg fi = .ok none) ∧
    ((((subset2Of fi.subset1).length : ℤ) - 1 < cfg.minDegreesOfFreedom) →
      ∀ (fitfn' : FitFn) (sq' : ℚ → ℚ) (cs' : ℕ → ℕ → ℕ),
        processField fitfn sq cs cfg fi = processField fitfn' sq' cs' cfg fi) ∧
    (¬ ((((subset2Of fi.subset1).length : ℤ) - 1 < cfg.minDegreesOfFreedom)) →
      ∀ (nm : String) (k : ℕ) (r : ℤ),
        processField fitfn sq cs cfg fi ≠ .error (.insufficientData nm k r)) ∧
    (∀ (fis : List FieldInput) (out : List (String × FieldOutput)),
      runTask fitfn sq cs cfg fis = .ok out →
      (∀ fj ∈ fis, fj.name = fi.name →
        ((subset2Of fj.subset1).length : ℤ) - 1 < cfg.minDegreesOfFreedom ∧
          fj.name ∈ cfg.allowFailure) →
      fi.name ∉ out.map Prod.fst) := by
  refine ⟨?_, ?_, ?_, ?_, ?_, ?_⟩
  · intro hd hn
    exact processField_dof_fail_not_allowed _ _ _ _ _ hd hn
  · intro hd hn rest
    exact runTask_cons_error _ _ _ _ _ _ _
      (processField_dof_fail_not_allowed _ _ _ _ _ hd hn)
  · intro hd hn
    exact processField_dof_fail_allowed _ _ _ _ _ hd hn
  · intro hd fitfn' sq' cs'
    by_cases hn : fi.name ∈ cfg.allowFailure
    · rw [processField_dof_fail_allowed _ _ _ _ _ hd hn,
        processField_dof_fail_allowed _ _ _ _ _ hd hn]
    · rw [processField_dof_fail_not_allowed _ _ _ _ _ hd hn,
        processField_dof_fail_not_allowed _ _ _ _ _ hd hn]
  · intro hd nm k r
    exact processField_dof_ok_not_insufficient _ _ _ _ _ hd nm k r
  · intro fis out hrun hall
    exact runTask_skipped_absent _ _ _ _ _ fis out hrun
      (fun fj hj hjn => by
        obtain ⟨h1, h2⟩ := hall fj hj hjn
        exact ⟨h1, hjn ▸ h2⟩)

/-- Claim C4, witness: a one-point field with `minDegreesOfFreedom = 1` and an
empty allow-failure set raises the insufficiency error naming the field, its
1 source and the 2 required. -/
theorem C4_witness :
    processField fit0 sqEx csEx cfgEx fieldEx1 =
      .error (.insufficientData "base_PsfFlux" 1 2) :=
  ((C4_theorem fit0 sqEx csEx cfgEx fieldEx1).1 (by decide) (by simp [cfgEx])).trans rfl

/-- Claim C5: in every clip iteration, the residual array is the fitted
surface evaluated at the working points minus the observed ratios, the
retention mask keeps a point iff its absolute residual is at most
`numSigmaClip` times the square root of the freshly computed mean squared
residual, the four parallel arrays are shrunk by exactly that mask — the
retained rows are exactly the mask-passing rows in their original relative
order — and a NaN residual always fails retention without raising. -/
theorem C5_theorem (fitfn : FitFn) (sq : ℚ → ℚ) (cfg : Config) (ctrl : Ctrl)
    (s : FitSample) (h1 : s.x.length = s.y.length)
    (h2 : s.x.length = s.apCorrData.length) (h3 : s.x.length = s.indices.length) :
    ((clipIter fitfn sq cfg ctrl s).1.x = applyMask s.x (keepMask fitfn sq cfg ctrl s) ∧
     (clipIter fitfn sq cfg ctrl s).1.y = applyMask s.y (keepMask fitfn sq cfg ctrl s) ∧
     (clipIter fitfn sq cfg ctrl s).1.apCorrData =
       applyMask s.apCorrData (keepMask fitfn sq cfg ctrl s) ∧
     (clipIter fitfn sq cfg ctrl s).1.indices =
       applyMask s.indices (keepMask fitfn sq cfg ctrl s)) ∧
    keepMask fitfn sq cfg ctrl s =
      (residuals (fitfn s.x s.y s.apCorrData ctrl) s).map
        (fun d => nleB (nabs d)
          (nmul (some cfg.numSigmaClip)
            (nroot sq (nmean ((residuals (fitfn s.x s.y s.apCorrData ctrl) s).map nsq))))) ∧
    zip4 ((clipIter fitfn sq cfg ctrl s).1) =
      (((zip4 s).zip (residuals (fitfn s.x s.y s.apCorrData ctrl) s)).filter
        (fun p => nleB (nabs p.2)
          (nmul (some cfg.numSigmaClip)
            (rmsOf sq (fitfn s.x s.y s.apCorrData ctrl) s)))).map Prod.fst ∧
    (∀ lim : NFloat, nleB (nabs none) lim = false) := by
  refine ⟨⟨rfl, rfl, rfl, rfl⟩, rfl, ?_, fun lim => by cases lim <;> rfl⟩
  have hres : (residuals (fitfn s.x s.y s.apCorrData ctrl) s).length = s.x.length :=
    residuals_length _ _ h1 h2
  have hz4 : (s.x.zip (s.y.zip (s.apCorrData.zip s.indices))).length =
      (residuals (fitfn s.x s.y s.apCorrData ctrl) s).length := by
    simp only [List.length_zip, hres]
    omega
  rw [clipIter_fst]
  rw [show zip4 (⟨applyMask s.x (keepMask fitfn sq cfg ctrl s),
      applyMask s.y (keepMask fitfn sq cfg ctrl s),
      applyMask s.apCorrData (keepMask fitfn sq cfg ctrl s),
      applyMask s.indices (keepMask fitfn sq cfg ctrl s)⟩ : FitSample) =
      (applyMask s.x (keepMask fitfn sq cfg ctrl s)).zip
        ((applyMask s.y (keepMask fitfn sq cfg ctrl s)).zip
          ((applyMask s.apCorrData (keepMask fitfn sq cfg ctrl s)).zip
            (applyMask s.indices (keepMask fitfn sq cfg ctrl s)))) from rfl]
  rw [← applyMask_zip, ← applyMask_zip, ← applyMask_zip]
  rw [show keepMask fitfn sq cfg ctrl s =
      (residuals (fitfn s.x s.y s.apCorrData ctrl) s).map
        (fun d => nleB (nabs d)
          (nmul (some cfg.numSigmaClip)
            (rmsOf sq (fitfn s.x s.y s.apCorrData ctrl) s))) from rfl]
  rw [applyMask_map_pred _ _ _ hz4]
  rfl

/-- Claim C5, witness: the characterization evaluated on the four-point
working set, whose clip keeps exactly the first three points. -/
theorem C5_witness :
    ((clipIter fit0 sqEx cfgEx (0, 0) s0Run).1.x =
      applyMask s0Run.x (keepMask fit0 sqEx cfgEx (0, 0) s0Run)) ∧
    (clipIter fit0 sqEx cfgEx (0, 0) s0Run).1.indices = [0, 1, 2] :=
  ⟨(C5_theorem fit0 sqEx cfgEx (0, 0) s0Run rfl rfl rfl).1.1, by rw [clipIter_run]; rfl⟩

/-- Claim C6: `subset2` consists of exactly the rows of `subset1`, in order,
whose per-field flag is false and whose flux is finite and strictly positive
(a NaN flux silently fails the test), and the ratio array satisfies
`apCorrData[n] = refFlux[n] / flux[n]` for every retained row `n`. -/
theorem C6_theorem (subset1 : List Record) :
    subset2Of subset1 =
      subset1.filter (fun r => !r.flag && (nfinite r.flux && ngtB r.flux (some 0))) ∧
    List.Sublist (subset2Of subset1) subset1 ∧
    (∀ r ∈ subset1, r.flux = none → r ∉ subset2Of subset1) ∧
    (buildArrays (subset2Of subset1)).apCorrData =
      (subset2Of subset1).map (fun r => ndiv r.refFlux r.flux) ∧
    (∀ n, n < (subset2Of subset1).length →
      ((buildArrays (subset2Of subset1)).apCorrData).getD n none =
        ndiv (((subset2Of subset1).getD n anyRec).refFlux)
          (((subset2Of subset1).getD n anyRec).flux)) := by
  have hfilter : subset2Of subset1 =
      subset1.filter (fun r => !r.flag && (nfinite r.flux && ngtB r.flux (some 0))) := by
    rw [subset2Of, isGoodMask_eq_map, applyMask_map_self]
  refine ⟨hfilter, ?_, ?_, rfl, ?_⟩
  · rw [hfilter]
    exact List.filter_sublist _
  · intro r _ hflux hmem
    rw [hfilter] at hmem
    have := (List.mem_filter.mp hmem).2
    rw [hflux] at this
    simp [nfinite] at this
  · intro n hn
    exact getD_map _ _ anyRec _ n hn

/-- Claim C6, witness: the narrowing evaluated on a four-record `subset1`
containing a good record, a NaN flux, a negative flux and a flagged record:
only the good record survives, and its ratio entry is `refFlux / flux`. -/
theorem C6_witness :
    subset2Of s1Ex =
      s1Ex.filter (fun r => !r.flag && (nfinite r.flux && ngtB r.flux (some 0))) ∧
    subset2Of s1Ex = [recEx 3] ∧
    ((buildArrays (subset2Of s1Ex)).apCorrData).getD 0 none =
      ndiv ((subset2Of s1Ex).getD 0 anyRec).refFlux ((subset2Of s1Ex).getD 0 anyRec).flux :=
  ⟨(C6_theorem s1Ex).1, subset2_s1Ex, (C6_theorem s1Ex).2.2.2.2 0 (by decide)⟩

/-- Claim C7: under the §4.3 precondition `len(subset2) - 1 ≥ m` and
`computeSize(0, 0) = 1`, the degree-adaptation loop terminates within
`orderX + orderY + 1` iterations (extra fuel does not change the result),
the resulting orders never exceed the starting orders (and are naturals, so
they stay ≥ 0), and the loop guard fails at the result. -/
theorem C7_theorem (cs : ℕ → ℕ → ℕ) (n : ℕ) (m : ℤ) (ox oy : ℕ)
    (h1 : cs 0 0 = 1) (h2 : m ≤ (n : ℤ) - 1) :
    adaptDegree cs n m (ox + oy + 1) (ox, oy) =
      some ((adaptDegree cs n m (ox + oy + 1) (ox, oy)).getD (0, 0)) ∧
    ((adaptDegree cs n m (ox + oy + 1) (ox, oy)).getD (0, 0)).1 ≤ ox ∧
    ((adaptDegree cs n m (ox + oy + 1) (ox, oy)).getD (0, 0)).2 ≤ oy ∧
    ¬ ((n : ℤ) - cs ((adaptDegree cs n m (ox + oy + 1) (ox, oy)).getD (0, 0)).1
        ((adaptDegree cs n m (ox + oy + 1) (ox, oy)).getD (0, 0)).2 < m) ∧
    (∀ fuel, ox + oy + 1 ≤ fuel →
      adaptDegree cs n m fuel (ox, oy) = adaptDegree cs n m (ox + oy + 1) (ox, oy)) := by
  obtain ⟨p, hp, hb1, hb2, hb3⟩ :=
    adaptDegree_terminates cs n m h1 h2 (ox + oy + 1) ox oy (by omega)
  rw [hp]
  simp only [Option.getD_some, eq_self_iff_true, true_and]
  exact ⟨hb1, hb2, hb3, fun fuel hf => adaptDegree_fuel_mono cs n m _ _ _ p fuel hp hf⟩

/-- Claim C7, witness: with `computeSize = (orderX+1)(orderY+1)`, 4 samples,
`m = 1` and starting degree `(2, 2)`, the adaptation terminates (at `(0, 0)`)
and the guard fails at the result. -/
theorem C7_witness :
    adaptDegree csEx 4 1 (2 + 2 + 1) (2, 2) =
      some ((adaptDegree csEx 4 1 (2 + 2 + 1) (2, 2)).getD (0, 0)) ∧
    ¬ ((4 : ℤ) - csEx ((adaptDegree csEx 4 1 (2 + 2 + 1) (2, 2)).getD (0, 0)).1
        ((adaptDegree csEx 4 1 (2 + 2 + 1) (2, 2)).getD (0, 0)).2 < 1) :=
  ⟨(C7_theorem csEx 4 1 2 2 rfl (by decide)).1,
   (C7_theorem csEx 4 1 2 2 rfl (by decide)).2.2.2.1⟩

/-- Claim C8: across every iteration of the clip loop started from the arrays
built over `subset2`, the working-set size never increases, the four parallel
arrays always have equal length, and the zipped quadruples (the index array
included) form a sublist of the initial quadruples — the index array reflects
current membership in the original ordering. -/
theorem C8_theorem (fitfn : FitFn) (sq : ℚ → ℚ) (cfg : Config) (ctrl : Ctrl)
    (subset2 : List Record) (k : ℕ) :
    (loopSample fitfn sq cfg ctrl (k + 1) (buildArrays subset2)).x.length ≤
      (loopSample fitfn sq cfg ctrl k (buildArrays subset2)).x.length ∧
    Wf (loopSample fitfn sq cfg ctrl k (buildArrays subset2)) ∧
    List.Sublist (zip4 (loopSample fitfn sq cfg ctrl k (buildArrays subset2)))
      (zip4 (buildArrays subset2)) ∧
    List.Sublist (loopSample fitfn sq cfg ctrl k (buildArrays subset2)).indices
      (List.range subset2.length) := by
  have hwf0 : Wf (buildArrays subset2) := by
    refine ⟨?_, ?_, ?_⟩ <;> simp [buildArrays]
  refine ⟨?_, loopSample_wf _ _ _ _ _ _ hwf0, loopSample_zip4_sublist _ _ _ _ _ _, ?_⟩
  · rw [loopSample_succ_outer]
    exact clipStep_length_le _ _ _ _ _
  · have hs := loopSample_indices_sublist fitfn sq cfg ctrl k (buildArrays subset2)
    simpa [buildArrays] using hs

/-- Claim C9: for every field that completes fitting, the used flag is set on
exactly the records at the indices surviving the final clip iteration and on
no other records of that field (true on a record iff it was true before or
its index survived; with all flags initially clear, true iff the index
survived); positions, fluxes and flags are never mutated; and a used flag
that was already set is never cleared. -/
theorem C9_theorem (fitfn : FitFn) (sq : ℚ → ℚ) (cs : ℕ → ℕ → ℕ) (cfg : Config)
    (fi : FieldInput) (out : FieldOutput)
    (h : processField fitfn sq cs cfg fi = .ok (some out)) :
    out.marked.length = (subset2Of fi.subset1).length ∧
    (∀ j, j < (subset2Of fi.subset1).length →
      ((out.marked.getD j anyRec).x = ((subset2Of fi.subset1).getD j anyRec).x ∧
       (out.marked.getD j anyRec).y = ((subset2Of fi.subset1).getD j anyRec).y ∧
       (out.marked.getD j anyRec).refFlux = ((subset2Of fi.subset1).getD j anyRec).refFlux ∧
       (out.marked.getD j anyRec).refFlag = ((subset2Of fi.subset1).getD j anyRec).refFlag ∧
       (out.marked.getD j anyRec).flux = ((subset2Of fi.subset1).getD j anyRec).flux ∧
       (out.marked.getD j anyRec).flag = ((subset2Of fi.subset1).getD j anyRec).flag)) ∧
    (∀ j, j < (subset2Of fi.subset1).length →
      (out.marked.getD j anyRec).used =
        (((subset2Of fi.subset1).getD j anyRec).used || decide (j ∈ out.indices))) ∧
    (∀ j, j < (subset2Of fi.subset1).length →
      ((subset2Of fi.subset1).getD j anyRec).used = false →
      ((out.marked.getD j anyRec).used = true ↔ j ∈ out.indices)) ∧
    (∀ j, j < (subset2Of fi.subset1).length →
      ((subset2Of fi.subset1).getD j anyRec).used = true →
      (out.marked.getD j anyRec).used = true) ∧
    out.indices = (loopSample fitfn sq cfg out.ctrl cfg.numIter
      (buildArrays (subset2Of fi.subset1))).indices := by
  obtain ⟨-, -, -, -, hidx, -, hmk⟩ := processField_ok_inv _ _ _ _ _ _ h
  have hget : ∀ j, (out.marked.getD j anyRec) =
      if j ∈ out.indices ∧ j < (subset2Of fi.subset1).length then
        setUsed ((subset2Of fi.subset1).getD j anyRec)
      else (subset2Of fi.subset1).getD j anyRec := by
    intro j
    rw [hmk, ← hidx, getD_markUsed]
  refine ⟨?_, ?_, ?_, ?_, ?_, hidx⟩
  · rw [hmk, markUsed_length]
  · intro j hj
    rw [hget j]
    by_cases hc : j ∈ out.indices ∧ j < (subset2Of fi.subset1).length <;>
      simp [hc, setUsed]
  · intro j hj
    rw [hget j]
    by_cases hc : j ∈ out.indices
    · simp [hc, hj, setUsed]
    · simp [hc, hj]
  · intro j hj hu
    rw [hget j]
    by_cases hc : j ∈ out.indices
    · simp [hc, hj, setUsed]
    · rw [if_neg (by simp [hc])]
      rw [hu]
      simp [hc]
  · intro j hj hu
    rw [hget j]
    by_cases hc : j ∈ out.indices
    · simp [hc, hj, setUsed]
    · rw [if_neg (by simp [hc])]
      exact hu

/-- Claim C9, witness: in the four-point run the surviving indices are
`[0, 1, 2]`; the used flags of the marked `subset2` are exactly
`[true, true, true, false]`, and for the clipped record 3 the flag is true
iff 3 survived (it did not). -/
theorem C9_witness :
    ((outRun.marked.getD 3 anyRec).used = true ↔ 3 ∈ outRun.indices) ∧
    outRun.indices = [0, 1, 2] ∧
    outRun.marked.map Record.used = [true, true, true, false] :=
  ⟨(C9_theorem fit0 sqEx csEx cfgEx fieldEx outRun processField_run).2.2.2.1 3
      (by decide) (by decide),
   by decide, by decide⟩

/-- Claim C10: with `numIter = 0`, every field that passes the
minimum-sample check fails with the unbound-local error when the error
surface is assembled, because `apCorrErr` is only assigned inside the clip
loop; with `numIter ≥ 1` this error never occurs, so `run` carries the
unstated precondition `numIter ≥ 1`. -/
theorem C10_theorem (fitfn : FitFn) (sq : ℚ → ℚ) (cs : ℕ → ℕ → ℕ) (cfg : Config)
    (fi : FieldInput) :
    (cfg.numIter = 0 → cs 0 0 = 1 →
      ¬ (((subset2Of fi.subset1).length : ℤ) - 1 < cfg.minDegreesOfFreedom) →
      processField fitfn sq cs cfg fi = .error .unboundLocal) ∧
    (1 ≤ cfg.numIter → processField fitfn sq cs cfg fi ≠ .error .unboundLocal) := by
  constructor
  · intro h0 h1 hd
    obtain ⟨p, hp, -, -, -⟩ :=
      adaptDegree_terminates cs (subset2Of fi.subset1).length cfg.minDegreesOfFreedom
        h1 (by omega) (cfg.orderX + cfg.orderY + 1) cfg.orderX cfg.orderY (by omega)
    simp only [processField]
    rw [if_neg hd, hp]
    split
    · rename_i heq
      exact absurd heq (by simp)
    · rename_i ctrl heq
      rw [h0, clipLoop_zero]
  · intro h1 heq
    simp only [processField] at heq
    split at heq
    · split at heq <;> simp at heq
    · split at heq
      · simp at heq
      · rename_i ctrl hctrl
        split at heq
        · rename_i hnone
          obtain ⟨k, hk⟩ : ∃ k, cfg.numIter = k + 1 := ⟨cfg.numIter - 1, by omega⟩
          rw [hk, clipLoop_errBinding_succ] at hnone
          exact absurd hnone (by simp)
        · exact Except.noConfusion heq

/-- Claim C10, witness: the four-point field, which passes the
minimum-sample check, fails with the unbound-local error when `numIter = 0`. -/
theorem C10_witness :
    processField fit0 sqEx csEx cfgEx0 fieldEx = .error .unboundLocal :=
  (C10_theorem fit0 sqEx csEx cfgEx0 fieldEx).1 rfl rfl (by decide)

end MeasureApCorr
